import Mathlib

/-!
Verification development for the stock backtesting repository.

The Python source is shallowly embedded here:
* money, prices and fee rates are `ℚ` (the source uses IEEE floats; all
  claims checked here are about exact arithmetic identities that the float
  code implements, so `ℚ` is the faithful idealisation);
* pandas date-indexed series over an instrument's bar index become Lean
  lists aligned with the bar list, indexed by position;
* Python exceptions become `Except String`;
* Python `int()` truncation becomes `pyInt` below.

`BacktestEngine.run_portfolio_backtest` — the spec's §4.3/§4.4 integer-share
ledger — is called from `backtest_runner.py`, `web_app.py` and
`test_strategy_overlay.py` but is not defined anywhere in the source tree;
the definitions for it further below are modelled from the spec and say so
in their doc comments.
-/

namespace StockBT

/-- Python `int(x)` applied to a float: truncation toward zero. -/
def pyInt (x : ℚ) : ℤ := if 0 ≤ x then ⌊x⌋ else ⌈x⌉

/-- Calendar attributes of one bar's date, as exposed by the pandas
`DatetimeIndex` accessors the source uses: `index.weekday` (Monday = 0) and
`index.day` (day of month, 1-based).  `month` is an absolute month number
(year * 12 + month), used only by the spec-side formalisation of the
"Nth trading occurrence of each month" reading of claim C6. -/
structure BarDate where
  weekday : ℤ
  day : ℤ
  month : ℤ
  deriving DecidableEq, Repr, Inhabited

/-- One price bar.  The embedded code only ever reads the `Close` column
(`data.loc[date, 'Close']`, `data['Close']`), so open/high/low/volume are
omitted. -/
structure Bar where
  date : BarDate
  close : ℚ
  deriving DecidableEq, Repr, Inhabited

/-- The `SignalType` enum from stock_strategy.py. -/
inductive SignalType where
  | buy
  | sell
  deriving DecidableEq, Repr, Inhabited

/-- The `params` dict of a `Strategy`.  Each key the source reads with
`params.get(k, default)` or `params[k]` is a field; `Option` distinguishes
a missing key from a present one. -/
structure Params where
  frequency : Option String := none
  trading_day : Option ℤ := none
  trade_shares : Option ℚ := none
  trade_amount : Option ℚ := none
  fast_period : Option ℕ := none
  slow_period : Option ℕ := none
  signal_period : Option ℕ := none
  buy_patterns : List String := []
  sell_patterns : List String := []
  ma_periods : List ℕ := []
  ma_band : ℚ := 0
  deriving DecidableEq, Repr, Inhabited

/-- The `Strategy` dataclass from stock_strategy.py (`type` is a Lean
keyword, so the field is named `stype`). -/
structure Strategy where
  name : String
  stype : String
  signal_type : SignalType
  params : Params
  enabled : Bool := true
  deriving DecidableEq, Repr, Inhabited

/-- The `Stock` strategy container from stock_strategy.py (its mutable
strategy lists become immutable fields; `add_strategy` returns the updated
record). -/
structure Stock where
  code : String
  initial_investment : ℚ := 0
  max_investment : ℚ := 100000
  fee_rate : ℚ := 3 / 10000
  buy_strategies : List Strategy := []
  sell_strategies : List Strategy := []
  deriving DecidableEq, Repr, Inhabited

/-- Source `Stock.add_strategy`: appends to the buy or sell list according to the
strategy's `signal_type`; the source performs no validation here. -/
def add_strategy (stock : Stock) (s : Strategy) : Stock :=
  if s.signal_type = SignalType.buy then
    { stock with buy_strategies := stock.buy_strategies ++ [s] }
  else
    { stock with sell_strategies := stock.sell_strategies ++ [s] }

/-- Source `Stock._generate_time_based_signals`.  Note the source compares calendar
attributes: `data.index.weekday == trading_day` for weekly and
`data.index.day == trading_day` for monthly; an unrecognised frequency
leaves the zero-initialised series untouched. -/
def generate_time_based_signals (bars : List Bar) (s : Strategy) : List ℤ :=
  let frequency := s.params.frequency.getD "daily"
  let trading_day := s.params.trading_day.getD 1
  let signal_value : ℤ := if s.signal_type = SignalType.buy then 1 else -1
  if frequency = "daily" then
    bars.map (fun _ => signal_value)
  else if frequency = "weekly" then
    bars.map (fun b => if b.date.weekday = trading_day then signal_value else 0)
  else if frequency = "monthly" then
    bars.map (fun b => if b.date.day = trading_day then signal_value else 0)
  else
    bars.map (fun _ => 0)

/-- Recursion for `ewm(span, adjust=False).mean()`: `y_t = (1-a)*y_{t-1} + a*x_t`. -/
def ewmaFrom (a : ℚ) : ℚ → List ℚ → List ℚ
  | _, [] => []
  | prev, x :: xs =>
    let y := (1 - a) * prev + a * x
    y :: ewmaFrom a y xs

/-- pandas `Series.ewm(span=span, adjust=False).mean()` with `a = 2/(span+1)`
and `y_0 = x_0`. -/
def ewm (span : ℕ) : List ℚ → List ℚ
  | [] => []
  | x :: xs => x :: ewmaFrom (2 / ((span : ℚ) + 1)) x xs

/-- Source `Stock._calculate_macd`: returns (macd, signal line, histogram). -/
def calculate_macd (prices : List ℚ) (fast slow signal : ℕ) :
    List ℚ × List ℚ × List ℚ :=
  let exp1 := ewm fast prices
  let exp2 := ewm slow prices
  let macd := List.zipWith (fun a b => a - b) exp1 exp2
  let signal_line := ewm signal macd
  let histogram := List.zipWith (fun a b => a - b) macd signal_line
  (macd, signal_line, histogram)

/-- Source `Stock._generate_macd_signals`.  The source walks `i = 1 .. len-1`,
setting `1` on a golden cross (when configured in `buy_patterns`) and then
`-1` on a death cross (when configured in `sell_patterns`); the two
conditions are mutually exclusive (`macd[i] > sig[i]` vs `macd[i] < sig[i]`),
so the sequential assignments reduce to the conditional below. -/
def generate_macd_signals (bars : List Bar) (s : Strategy) : List ℤ :=
  let fast := s.params.fast_period.getD 12
  let slow := s.params.slow_period.getD 26
  let signal := s.params.signal_period.getD 9
  let md := calculate_macd (bars.map Bar.close) fast slow signal
  let macd := md.1
  let sig := md.2.1
  (List.range bars.length).map (fun i =>
    if i = 0 then 0
    else if "golden_cross" ∈ s.params.buy_patterns ∧
        macd.getD i 0 > sig.getD i 0 ∧ macd.getD (i - 1) 0 ≤ sig.getD (i - 1) 0 then 1
    else if "death_cross" ∈ s.params.sell_patterns ∧
        macd.getD i 0 < sig.getD i 0 ∧ macd.getD (i - 1) 0 ≥ sig.getD (i - 1) 0 then -1
    else 0)

/-- Simple moving average of window `p` ending at position `i` (window
clipped at the start of the series). -/
def smaAt (closes : List ℚ) (p i : ℕ) : ℚ :=
  let w := (closes.take (i + 1)).drop (i + 1 - p)
  w.sum / (w.length : ℚ)

/-- Modelled from the spec: `Stock._generate_ma_touch_signals` is dispatched
to from `Stock._generate_strategy_signals` but its definition is absent from
the source tree.  Spec §4.1 (threshold-touch): "fires when the close is
within a configurable percentage band of one or more selected moving
averages; direction fixed by the rule." -/
def generate_ma_touch_signals (bars : List Bar) (s : Strategy) : List ℤ :=
  let signal_value : ℤ := if s.signal_type = SignalType.buy then 1 else -1
  let closes := bars.map Bar.close
  (List.range bars.length).map (fun i =>
    if s.params.ma_periods.any (fun p =>
        |closes.getD i 0 - smaAt closes p i| ≤ s.params.ma_band * smaAt closes p i)
    then signal_value else 0)

/-- Source `Stock._generate_strategy_signals`: dispatch on the strategy kind; an
unknown kind raises `ValueError`. -/
def generate_strategy_signals (bars : List Bar) (s : Strategy) :
    Except String (List ℤ) :=
  if s.stype = "time_based" then .ok (generate_time_based_signals bars s)
  else if s.stype = "macd_pattern" then .ok (generate_macd_signals bars s)
  else if s.stype = "ma_touch" then .ok (generate_ma_touch_signals bars s)
  else .error ("ValueError: unknown strategy type " ++ s.stype)

/-- Per-date amount of `Stock._calculate_strategy_amounts`: fixed share
count (`trade_shares * close * (1+fee)`) when `trade_shares` is present,
otherwise fixed notional floored to a whole-share cost
(`int(amount/(close*(1+fee))) * close * (1+fee)`); a missing `trade_amount`
key raises `KeyError`. -/
def strategyAmountAt (s : Strategy) (fee close : ℚ) : Except String ℚ :=
  match s.params.trade_shares with
  | some shares => .ok (shares * close * (1 + fee))
  | none =>
    match s.params.trade_amount with
    | some amount =>
      let max_shares := pyInt (amount / (close * (1 + fee)))
      .ok ((max_shares : ℚ) * close * (1 + fee))
    | none => .error "KeyError: trade_amount"

/-- Python loop bodies that may raise, folded over a list: the first raised
exception aborts the whole computation. -/
def mapExcept (f : α → Except String β) : List α → Except String (List β)
  | [] => .ok []
  | a :: as =>
    match f a with
    | .error e => .error e
    | .ok b =>
      match mapExcept f as with
      | .error e => .error e
      | .ok bs => .ok (b :: bs)

/-- Source `Stock._calculate_strategy_amounts`: zero everywhere except on the dates
where the strategy's own signal fires (`1` for a buy strategy, `-1` for a
sell strategy). -/
def calculate_strategy_amounts (bars : List Bar) (signals : List ℤ)
    (s : Strategy) (fee : ℚ) : Except String (List ℚ) :=
  let firing : ℤ := if s.signal_type = SignalType.buy then 1 else -1
  mapExcept
    (fun bs => if bs.2 = firing then strategyAmountAt s fee bs.1.close else .ok 0)
    (bars.zip signals)

/-- Signals of one strategy followed by its amounts, as computed
back-to-back inside `Stock.get_signals` for each enabled strategy. -/
def strategyAmountSeries (bars : List Bar) (fee : ℚ) (s : Strategy) :
    Except String (List ℚ) :=
  match generate_strategy_signals bars s with
  | .error e => .error e
  | .ok sigs => calculate_strategy_amounts bars sigs s fee

/-- Amount series of every enabled strategy of one direction, in list
order (`for strategy in ...: if strategy.enabled:`). -/
def enabledAmounts (bars : List Bar) (fee : ℚ) (strats : List Strategy) :
    Except String (List (List ℚ)) :=
  mapExcept (strategyAmountSeries bars fee) (strats.filter (·.enabled))

/-- The accumulation `if amounts[date] > 0: total += amounts[date]` from the
merge loop of `Stock.get_signals`. -/
def accumPositive (amts : List ℚ) : ℚ :=
  amts.foldl (fun acc a => if 0 < a then acc + a else acc) 0

/-- Value at position `i` of each per-strategy amount series. -/
def amountsAt (series : List (List ℚ)) (i : ℕ) : List ℚ :=
  series.map (fun l => l.getD i 0)

/-- Net-signal merge of `Stock.get_signals` for one date, from its
`buy_amount`/`sell_amount` accumulators. -/
def netSignalAt (buy_amount sell_amount : ℚ) : ℚ :=
  if 0 < buy_amount ∧ 0 < sell_amount then
    let net_amount := buy_amount - sell_amount
    if 0 < net_amount then net_amount
    else if net_amount < 0 then net_amount
    else 0
  else if 0 < buy_amount then buy_amount
  else if 0 < sell_amount then -sell_amount
  else 0

/-- Source `Stock.get_signals`: per-strategy signals and amounts for all enabled
buy then sell strategies, merged into one signed notional per date. -/
def get_signals (stock : Stock) (bars : List Bar) : Except String (List ℚ) :=
  match enabledAmounts bars stock.fee_rate stock.buy_strategies with
  | .error e => .error e
  | .ok buySeries =>
    match enabledAmounts bars stock.fee_rate stock.sell_strategies with
    | .error e => .error e
    | .ok sellSeries =>
      .ok ((List.range bars.length).map (fun i =>
        netSignalAt (accumPositive (amountsAt buySeries i))
          (accumPositive (amountsAt sellSeries i))))

/-- Per-instrument ledger state of the spec's §4.4 state machine: available
cash and share holdings.  Holdings are an `ℤ` so that the non-negativity
half of the integrality invariant (claim C3) is a theorem rather than a
typing artifact. -/
structure LedgerState where
  cash : ℚ
  holdings : ℤ
  deriving DecidableEq, Repr, Inhabited

/-- Immutable trade record of the spec's data model (§3). -/
structure Trade where
  date : BarDate
  shares : ℤ
  price : ℚ
  value : ℚ
  commission : ℚ
  is_buy : Bool
  deriving DecidableEq, Repr, Inhabited

/-- Modelled from the spec: the OrderSizer of §4.3, part of
`BacktestEngine.run_portfolio_backtest`, which is called from
`backtest_runner.py`, `web_app.py` and `test_strategy_overlay.py` but not
defined in the source tree.  Buy: `max(0, min(floor(M/(P*(1+f))),
floor(availableCash/(P*(1+f)))))`; sell: `-max(0, min(currentHoldings,
floor(M/P)))`. -/
def executedShares (signal price fee : ℚ) (st : LedgerState) : ℤ :=
  if 0 < signal then
    max 0 (min ⌊signal / (price * (1 + fee))⌋ ⌊st.cash / (price * (1 + fee))⌋)
  else if signal < 0 then
    -(max 0 (min st.holdings ⌊(-signal) / price⌋))
  else 0

/-- Modelled from the spec: one date transition of the §4.4 LedgerSimulator
(missing `run_portfolio_backtest`).  A non-positive close is a skipped
trading day (§4.4 failure semantics); a trade is recorded only when the
executed share count is nonzero; `commission = |shares*P|*f` and
`cash -= shares*P + commission`. -/
def ledgerStep (fee : ℚ) (st : LedgerState) (b : Bar) (signal : ℚ) :
    LedgerState × Option Trade :=
  if b.close ≤ 0 then (st, none)
  else
    let sh := executedShares signal b.close fee st
    if sh = 0 then (st, none)
    else
      let value := (sh : ℚ) * b.close
      let commission := |value| * fee
      ({ cash := st.cash - (value + commission), holdings := st.holdings + sh },
       some { date := b.date, shares := sh, price := b.close, value := value,
              commission := commission, is_buy := 0 < sh })

/-- Daily ledger snapshot recorded for every date regardless of whether a
trade executed (spec §4.4). -/
structure DailyRecord where
  date : BarDate
  cash : ℚ
  holdings : ℤ
  close : ℚ
  value : ℚ
  deriving DecidableEq, Repr, Inhabited

/-- Modelled from the spec: the chronological per-date loop of the §4.4
LedgerSimulator (missing `run_portfolio_backtest`): each date applies one
`ledgerStep` and records `portfolio_value = cash + holdings*close`. -/
def runLedger (fee : ℚ) (st : LedgerState) :
    List (Bar × ℚ) → List DailyRecord × List Trade
  | [] => ([], [])
  | (b, sig) :: rest =>
    let step := ledgerStep fee st b sig
    let st2 := step.1
    let today : DailyRecord :=
      { date := b.date, cash := st2.cash, holdings := st2.holdings,
        close := b.close, value := st2.cash + (st2.holdings : ℚ) * b.close }
    let later := runLedger fee st2 rest
    (today :: later.1, step.2.toList ++ later.2)

/-- Modelled from the spec: the opening position of §4.3 (missing
`run_portfolio_backtest`): if `initial_investment > 0`, buy
`floor(initial_investment/(P0*(1+f)))` shares at the first close with the
same commission formula, deducted from the `max_investment` cash pool. -/
def initLedger (stock : Stock) (p0 : ℚ) : LedgerState × List Trade :=
  if 0 < stock.initial_investment ∧ 0 < p0 then
    let sh := ⌊stock.initial_investment / (p0 * (1 + stock.fee_rate))⌋
    if sh = 0 then ({ cash := stock.max_investment, holdings := 0 }, [])
    else
      let value := (sh : ℚ) * p0
      let commission := |value| * stock.fee_rate
      ({ cash := stock.max_investment - (value + commission), holdings := sh },
       [{ date := default, shares := sh, price := p0, value := value,
          commission := commission, is_buy := true }])
  else ({ cash := stock.max_investment, holdings := 0 }, [])

/-- Result of one instrument's independent simulation. -/
structure InstrumentRun where
  records : List DailyRecord
  trades : List Trade
  deriving DecidableEq, Repr, Inhabited

/-- Portfolio-value series of one instrument's run. -/
def InstrumentRun.values (r : InstrumentRun) : List ℚ :=
  r.records.map (·.value)

/-- Modelled from the spec: one instrument's end-to-end simulation inside
the missing `run_portfolio_backtest`: aggregate the instrument's signals
with `Stock.get_signals` (source code), then replay them through the §4.4
ledger starting from the §4.3 opening position. -/
def runInstrument (stock : Stock) (bars : List Bar) :
    Except String InstrumentRun :=
  match get_signals stock bars with
  | .error e => .error e
  | .ok sigs =>
    let init := initLedger stock ((bars.headD default).close)
    let run := runLedger stock.fee_rate init.1 (bars.zip sigs)
    .ok { records := run.1, trades := init.2 ++ run.2 }

/-- Pointwise accumulation of per-instrument value series into the composed
portfolio series (all instruments share one date grid of length `n`). -/
def sumSeries (n : ℕ) (ls : List (List ℚ)) : List ℚ :=
  ls.foldl (fun acc l => List.zipWith (· + ·) acc l) (List.replicate n 0)

/-- Modelled from the spec: the PortfolioComposer half of the missing
`run_portfolio_backtest` (§4.5): each instrument is simulated independently
with its own budget, the per-instrument value series are summed per date and
the trade logs concatenated. -/
def run_portfolio_backtest (insts : List (Stock × List Bar)) (n : ℕ) :
    Except String (List ℚ × List Trade) :=
  match mapExcept (fun sb => runInstrument sb.1 sb.2) insts with
  | .error e => .error e
  | .ok runs =>
    .ok (sumSeries n (runs.map InstrumentRun.values),
         (runs.map InstrumentRun.trades).flatten)

/-- Portfolio state of `BacktestEngine._calculate_portfolio_performance`
(backtest_engine.py): a cash balance and a fractional share count. -/
structure EngineState where
  cash : ℚ
  shares : ℚ
  deriving DecidableEq, Repr, Inhabited

/-- Trade dict appended by `BacktestEngine._calculate_portfolio_performance`. -/
structure EngineTrade where
  date : BarDate
  shares : ℚ
  price : ℚ
  value : ℚ
  commission : ℚ
  is_buy : Bool
  deriving DecidableEq, Repr, Inhabited

/-- Daily row of the `positions` frame built by
`BacktestEngine._calculate_portfolio_performance`: cash, shares and close
(whose product is the recorded `holdings` value) and the recorded
`portfolio_value`. -/
structure EngineRecord where
  cash : ℚ
  shares : ℚ
  close : ℚ
  total : ℚ
  deriving DecidableEq, Repr, Inhabited

/-- Single-symbol trade execution of
`BacktestEngine._calculate_portfolio_performance` (backtest_engine.py lines
189-218): rebalance toward `total_value * target_position`, trading only
when `abs(shares_to_trade) > 0.001` and the strategy emitted a nonzero
signal for the date; `commission = abs(trade_value) * commission_rate`. -/
def engineStep (rate : ℚ) (st : EngineState) (date : BarDate)
    (price target_position signal : ℚ) : EngineState × Option EngineTrade :=
  let current_holdings_value := st.shares * price
  let total_value := st.cash + current_holdings_value
  let target_holdings_value := total_value * target_position
  let target_shares := if 0 < price then target_holdings_value / price else 0
  let shares_to_trade := target_shares - st.shares
  if 1 / 1000 < |shares_to_trade| ∧ signal ≠ 0 then
    let trade_value := shares_to_trade * price
    let commission := |trade_value| * rate
    ({ cash := st.cash - (trade_value + commission), shares := target_shares },
     some { date := date, shares := shares_to_trade, price := price,
            value := trade_value, commission := commission,
            is_buy := 0 < shares_to_trade })
  else (st, none)

/-- Daily loop of `BacktestEngine._calculate_portfolio_performance` for one
symbol: each date executes `engineStep` and then records
`portfolio_value = cash + holdings_value` (lines 292-307).  Each input entry
is (date, close, target position, signal). -/
def engineRun (rate : ℚ) (st : EngineState) :
    List (BarDate × ℚ × ℚ × ℚ) → List EngineRecord × List EngineTrade
  | [] => ([], [])
  | (d, price, pos, sig) :: rest =>
    let step := engineStep rate st d price pos sig
    let st2 := step.1
    let holdings_value := st2.shares * price
    let today : EngineRecord :=
      { cash := st2.cash, shares := st2.shares, close := price,
        total := st2.cash + holdings_value }
    let later := engineRun rate st2 rest
    (today :: later.1, step.2.toList ++ later.2)

/-- Running maximum continuing from an already-seen maximum `m`. -/
def expandingMaxFrom (m : ℚ) : List ℚ → List ℚ
  | [] => []
  | x :: xs =>
    let m2 := max m x
    m2 :: expandingMaxFrom m2 xs

/-- pandas `expanding(min_periods=1).max()`: the running maximum. -/
def expandingMax : List ℚ → List ℚ
  | [] => []
  | x :: xs => x :: expandingMaxFrom x xs

/-- Source `utils.calculate_drawdown`: `cumulative_returns / peak - 1` where `peak`
is the running maximum. -/
def calculate_drawdown (cum : List ℚ) : List ℚ :=
  List.zipWith (fun c p => c / p - 1) cum (expandingMax cum)

/-- pandas `.min()` of a series (0 on an empty list; only used nonempty). -/
def listMin : List ℚ → ℚ
  | [] => 0
  | x :: xs => xs.foldl min x

/-- pandas `.max()` of a series (0 on an empty list; only used nonempty). -/
def listMax : List ℚ → ℚ
  | [] => 0
  | x :: xs => xs.foldl max x

/-- pandas `.idxmin()`: position of the first occurrence of the minimum. -/
def argminFirst : List ℚ → ℕ
  | [] => 0
  | [_] => 0
  | x :: y :: xs =>
    if x ≤ listMin (y :: xs) then 0 else 1 + argminFirst (y :: xs)

/-- pandas `.idxmax()`: position of the first occurrence of the maximum. -/
def argmaxFirst : List ℚ → ℕ
  | [] => 0
  | [_] => 0
  | x :: y :: xs =>
    if listMax (y :: xs) ≤ x then 0 else 1 + argmaxFirst (y :: xs)

/-- Recovery scan of `utils.calculate_max_drawdown`: first offset whose
value is `>= target`, `none` when the loop falls through. -/
def findRecovery (target : ℚ) : List ℚ → Option ℕ
  | [] => none
  | x :: xs =>
    if target ≤ x then some 0 else (findRecovery target xs).map (· + 1)

/-- Result dict of `utils.calculate_max_drawdown`, with the series' dates
embedded as list positions.  `recovery_idx = none` is the Python
`recovery_idx = None`. -/
structure MaxDrawdownInfo where
  max_drawdown : ℚ
  max_drawdown_idx : ℕ
  peak_idx : ℕ
  recovery_idx : Option ℕ
  recovery_days : ℕ
  deriving DecidableEq, Repr, Inhabited

/-- Trough position chosen by `utils.calculate_max_drawdown`:
`drawdown.idxmin()`. -/
def troughIdx (cum : List ℚ) : ℕ :=
  argminFirst (calculate_drawdown cum)

/-- Prior-peak value used by the recovery scan of
`utils.calculate_max_drawdown`: `peak.loc[last_peak_idx]` where
`last_peak_idx = peak.loc[:max_dd_idx].idxmax()`. -/
def priorPeakVal (cum : List ℚ) : ℚ :=
  let peak := expandingMax cum
  peak.getD (argmaxFirst (peak.take (troughIdx cum + 1))) 0

/-- Source `utils.calculate_max_drawdown` (utils.py lines 121-167).  The Python
guard `if max_dd_idx and max_dd_idx < cumulative_returns.index[-1]` tests a
pandas `Timestamp`, which is always truthy, so only the comparison with the
last date remains; on positions that comparison is `trough < len - 1`.  The
scan starts at the trough itself (`cumulative_returns.loc[max_dd_idx:]` is
inclusive) and `recovery_days`/`recovery_idx` keep their initial values
`0`/`None` when no value reaches the prior peak. -/
def calculate_max_drawdown (cum : List ℚ) : MaxDrawdownInfo :=
  let drawdown := calculate_drawdown cum
  let max_dd := listMin drawdown
  let max_dd_idx := troughIdx cum
  let peak := expandingMax cum
  let last_peak_idx := argmaxFirst (peak.take (max_dd_idx + 1))
  let found :=
    if max_dd_idx < cum.length - 1 then
      findRecovery (priorPeakVal cum) (cum.drop max_dd_idx)
    else none
  match found with
  | some i =>
    { max_drawdown := max_dd, max_drawdown_idx := max_dd_idx,
      peak_idx := last_peak_idx, recovery_idx := some (max_dd_idx + i),
      recovery_days := i }
  | none =>
    { max_drawdown := max_dd, max_drawdown_idx := max_dd_idx,
      peak_idx := last_peak_idx, recovery_idx := none, recovery_days := 0 }

/-- The line `total_return = (1 + returns).prod() - 1` from
`PerformanceAnalyzer._calculate_return_metrics` (performance.py line 58). -/
def totalReturn (returns : List ℚ) : ℚ :=
  (returns.map (fun r => 1 + r)).prod - 1

/-- Annualized return of `PerformanceAnalyzer._calculate_return_metrics`
(performance.py lines 60-63): `years = days/252.0` and
`(1 + total_return) ** (1/years) - 1` when `years > 0`, else `0`.  The float
`**` with a fractional exponent is embedded as the real power, which is
noncomputable in Lean; the theorems about it are proved with explicit
monotonicity lemmas. -/
noncomputable def perfAnnualizedReturn (returns : List ℚ) : ℝ :=
  let total_return := totalReturn returns
  let days := returns.length
  let years : ℝ := (days : ℝ) / 252
  if 0 < years then (1 + (total_return : ℝ)) ^ (1 / years) - 1 else 0

/-- Source `utils.calculate_annualized_return` (utils.py lines 211-228):
`(1 + cumulative_return) ** (365/days) - 1`, `0` when `days <= 0`. -/
noncomputable def calculate_annualized_return (cumulative_return : ℝ)
    (days : ℤ) : ℝ :=
  if days ≤ 0 then 0
  else (1 + cumulative_return) ^ ((365 : ℝ) / (days : ℝ)) - 1

/-! Helper lemmas about the list plumbing of the embedding. -/

theorem getD_map_range {α : Type} (f : ℕ → α) {n i : ℕ} (hi : i < n) (d : α) :
    ((List.range n).map f).getD i d = f i := by
  rw [List.getD_eq_getElem _ _ (by simpa using hi)]
  simp

theorem getD_map {α β : Type} (f : α → β) {l : List α} {i : ℕ}
    (hi : i < l.length) (d : β) (d2 : α) :
    (l.map f).getD i d = f (l.getD i d2) := by
  rw [List.getD_eq_getElem _ _ (by simpa using hi), List.getD_eq_getElem _ _ hi]
  simp

/-! Claim C6: time-based rule firing dates. -/

/-- Formalisation of claim C6's description of a monthly time-based rule,
following the spec's words (§4.1, "fires on the Nth trading occurrence
within each calendar period"): the rule fires at a bar iff that bar is the
`n`-th bar (1-based) of its calendar month present in the series, with
signal value `v`. -/
def specMonthlyNthOccurrence (bars : List Bar) (n v : ℤ) : List ℤ :=
  (List.range bars.length).map (fun i =>
    let b := bars.getD i default
    if (((bars.take (i + 1)).filter
          (fun c => c.date.month = b.date.month)).length : ℤ) = n
    then v else 0)

/-- June 2025-style month whose 1st falls on a weekend: the first trading
day is Monday June 2 (weekday 0, day 2), followed by Tuesday June 3. -/
def c6bars : List Bar :=
  [{ date := { weekday := 0, day := 2, month := 6 }, close := 10 },
   { date := { weekday := 1, day := 3, month := 6 }, close := 10 }]

/-- Monthly buy rule with `trading_day = 1`. -/
def c6strat : Strategy :=
  { name := "monthly1", stype := "time_based", signal_type := SignalType.buy,
    params := { frequency := some "monthly", trading_day := some 1,
                trade_amount := some 10000 } }

/-- C6 counterexample: the source's monthly time-based rule compares the
calendar day-of-month (`data.index.day == trading_day`), not the Nth
trading occurrence of the month.  In a month whose 1st is a non-trading
day, the rule with `trading_day = 1` never fires, while the claimed
"1st trading occurrence" reading fires on the month's first bar. -/
theorem C6_counterexample :
    generate_time_based_signals c6bars c6strat = [0, 0] ∧
    specMonthlyNthOccurrence c6bars 1 1 = [1, 0] ∧
    generate_time_based_signals c6bars c6strat ≠
      specMonthlyNthOccurrence c6bars 1 1 := by
  refine ⟨by decide, by decide, by decide⟩

/-- C6 amended: a time-based rule fires on calendar-attribute equality, not
trading-occurrence counts: with weekly frequency it fires on bars whose
calendar weekday equals `trading_day`, with monthly frequency on bars whose
calendar day-of-month equals `trading_day`, and with daily frequency on
every bar; the signal value is `1` for a buy rule and `-1` for a sell rule. -/
theorem C6_time_based_calendar_attributes (bars : List Bar) (s : Strategy)
    (i : ℕ) (hi : i < bars.length) :
    (s.params.frequency.getD "daily" = "weekly" →
      (generate_time_based_signals bars s).getD i 0 =
        if (bars.getD i default).date.weekday = s.params.trading_day.getD 1
        then (if s.signal_type = SignalType.buy then (1 : ℤ) else -1) else 0) ∧
    (s.params.frequency.getD "daily" = "monthly" →
      (generate_time_based_signals bars s).getD i 0 =
        if (bars.getD i default).date.day = s.params.trading_day.getD 1
        then (if s.signal_type = SignalType.buy then (1 : ℤ) else -1) else 0) ∧
    (s.params.frequency.getD "daily" = "daily" →
      (generate_time_based_signals bars s).getD i 0 =
        (if s.signal_type = SignalType.buy then (1 : ℤ) else -1)) := by
  unfold generate_time_based_signals
  refine ⟨fun h => ?_, fun h => ?_, fun h => ?_⟩
  · rw [h, if_neg (by decide : ¬("weekly" = "daily")), if_pos rfl,
      getD_map _ hi _ default]
  · rw [h, if_neg (by decide : ¬("monthly" = "daily")),
      if_neg (by decide : ¬("monthly" = "weekly")), if_pos rfl,
      getD_map _ hi _ default]
  · rw [h, if_pos rfl, getD_map _ hi _ default]

/-- C6 witness: the amended characterisation evaluated on the concrete
June bars and monthly rule of the counterexample. -/
theorem C6_amended_witness :
    0 < c6bars.length ∧
    ((c6strat.params.frequency.getD "daily" = "weekly" →
      (generate_time_based_signals c6bars c6strat).getD 0 0 =
        if (c6bars.getD 0 default).date.weekday = c6strat.params.trading_day.getD 1
        then (if c6strat.signal_type = SignalType.buy then (1 : ℤ) else -1) else 0) ∧
    (c6strat.params.frequency.getD "daily" = "monthly" →
      (generate_time_based_signals c6bars c6strat).getD 0 0 =
        if (c6bars.getD 0 default).date.day = c6strat.params.trading_day.getD 1
        then (if c6strat.signal_type = SignalType.buy then (1 : ℤ) else -1) else 0) ∧
    (c6strat.params.frequency.getD "daily" = "daily" →
      (generate_time_based_signals c6bars c6strat).getD 0 0 =
        (if c6strat.signal_type = SignalType.buy then (1 : ℤ) else -1))) :=
  ⟨by decide, C6_time_based_calendar_attributes c6bars c6strat 0 (by decide)⟩

/-! Claim C9: when malformed rule configurations are rejected. -/

theorem mapExcept_error_of_mem {α β : Type} (f : α → Except String β)
    (l : List α) (a : α) (e : String) (ha : a ∈ l) (he : f a = .error e) :
    ∃ d, mapExcept f l = .error d := by
  induction l with
  | nil => cases ha
  | cons b rest ih =>
    rcases List.mem_cons.mp ha with rfl | hmem
    · exact ⟨e, by simp [mapExcept, he]⟩
    · cases hfb : f b with
      | error d => exact ⟨d, by simp [mapExcept, hfb]⟩
      | ok v =>
        obtain ⟨d, hd⟩ := ih hmem
        exact ⟨d, by simp [mapExcept, hfb, hd]⟩

/-- Malformed rule: an unknown strategy kind. -/
def c9bogus : Strategy :=
  { name := "bogus", stype := "unknown_kind", signal_type := SignalType.buy,
    params := {} }

/-- Configuration obtained by adding the malformed rule. -/
def c9stock : Stock := add_strategy { code := "X" } c9bogus

/-- One-bar series used to exercise signal generation. -/
def c9bars : List Bar := [{ date := { weekday := 0, day := 2, month := 6 }, close := 10 }]

/-- C9 counterexample: setup does not reject a malformed rule.
`Stock.add_strategy` performs no validation — the unknown-kind rule is
accepted into the configuration — and the `ValueError` for the unknown kind
is raised only later, inside signal generation
(`Stock._generate_strategy_signals`, reached from `Stock.get_signals`), so
signal generation does run with the malformed rule in the configuration,
contradicting the claim that the configuration is rejected fatally at setup
time before any processing. -/
theorem C9_counterexample :
    (add_strategy { code := "X" } c9bogus).buy_strategies = [c9bogus] ∧
    generate_strategy_signals c9bars c9bogus =
      .error "ValueError: unknown strategy type unknown_kind" ∧
    get_signals c9stock c9bars =
      .error "ValueError: unknown strategy type unknown_kind" := by
  refine ⟨by decide, rfl, rfl⟩

/-- C9 amended: a rule of unknown kind is accepted at setup
(`add_strategy` has no validation or error channel), and the fatal
`ValueError` surfaces when `Stock.get_signals` evaluates the configured
rules during signal generation — for every bar series, `get_signals` on a
configuration containing an enabled unknown-kind rule fails with an error,
so (in the spec's pipeline, where signal generation precedes the ledger
replay) no ledger transition runs with such a configuration. -/
theorem C9_unknown_kind_fails_at_generation (stock : Stock) (bars : List Bar)
    (s : Strategy) (hmem : s ∈ stock.buy_strategies ∨ s ∈ stock.sell_strategies)
    (hen : s.enabled = true) (h1 : s.stype ≠ "time_based")
    (h2 : s.stype ≠ "macd_pattern") (h3 : s.stype ≠ "ma_touch") :
    ∃ e, get_signals stock bars = .error e := by
  have hgen : generate_strategy_signals bars s =
      .error ("ValueError: unknown strategy type " ++ s.stype) := by
    rw [generate_strategy_signals, if_neg h1, if_neg h2, if_neg h3]
  have hser : strategyAmountSeries bars stock.fee_rate s =
      .error ("ValueError: unknown strategy type " ++ s.stype) := by
    rw [strategyAmountSeries, hgen]
  rcases hmem with hb | hs
  · have hmf : s ∈ stock.buy_strategies.filter (·.enabled) :=
      List.mem_filter.mpr ⟨hb, by simp [hen]⟩
    obtain ⟨d, hd⟩ := mapExcept_error_of_mem
      (strategyAmountSeries bars stock.fee_rate) _ s _ hmf hser
    have hEB : enabledAmounts bars stock.fee_rate stock.buy_strategies = .error d := hd
    exact ⟨d, by rw [get_signals, hEB]⟩
  · cases hB : enabledAmounts bars stock.fee_rate stock.buy_strategies with
    | error d => exact ⟨d, by rw [get_signals, hB]⟩
    | ok B =>
      have hmf : s ∈ stock.sell_strategies.filter (·.enabled) :=
        List.mem_filter.mpr ⟨hs, by simp [hen]⟩
      obtain ⟨d, hd⟩ := mapExcept_error_of_mem
        (strategyAmountSeries bars stock.fee_rate) _ s _ hmf hser
      have hES : enabledAmounts bars stock.fee_rate stock.sell_strategies = .error d := hd
      exact ⟨d, by rw [get_signals, hB, hES]⟩

/-- C9 witness: the amended theorem applied to the concrete malformed
configuration of the counterexample. -/
theorem C9_amended_witness :
    (c9bogus ∈ c9stock.buy_strategies ∨ c9bogus ∈ c9stock.sell_strategies) ∧
    c9bogus.enabled = true ∧ c9bogus.stype ≠ "time_based" ∧
    c9bogus.stype ≠ "macd_pattern" ∧ c9bogus.stype ≠ "ma_touch" ∧
    ∃ e, get_signals c9stock c9bars = .error e :=
  ⟨by decide, by decide, by decide, by decide, by decide,
   C9_unknown_kind_fails_at_generation c9stock c9bars c9bogus (by decide)
     (by decide) (by decide) (by decide) (by decide)⟩

/-! Claim C1: the aggregated signal is buy sum minus sell sum. -/

theorem foldl_accumPositive_nonneg (l : List ℚ) (acc : ℚ) (h : 0 ≤ acc) :
    0 ≤ l.foldl (fun acc a => if 0 < a then acc + a else acc) acc := by
  induction l generalizing acc with
  | nil => exact h
  | cons x xs ih =>
    simp only [List.foldl_cons]
    split
    · exact ih _ (by linarith)
    · exact ih _ h

theorem accumPositive_nonneg (l : List ℚ) : 0 ≤ accumPositive l :=
  foldl_accumPositive_nonneg l 0 le_rfl

instance {ε α : Type} [DecidableEq ε] [DecidableEq α] :
    DecidableEq (Except ε α)
  | .error a, .error b =>
    if h : a = b then .isTrue (by rw [h])
    else .isFalse (by intro hc; cases hc; exact h rfl)
  | .error _, .ok _ => .isFalse (by intro h; cases h)
  | .ok _, .error _ => .isFalse (by intro h; cases h)
  | .ok a, .ok b =>
    if h : a = b then .isTrue (by rw [h])
    else .isFalse (by intro hc; cases hc; exact h rfl)

theorem netSignalAt_eq_sub (b s : ℚ) (hb : 0 ≤ b) (hs : 0 ≤ s) :
    netSignalAt b s = b - s := by
  unfold netSignalAt
  by_cases h1 : 0 < b ∧ 0 < s
  · rw [if_pos h1]
    dsimp only
    split_ifs <;> linarith
  · rw [if_neg h1]
    by_cases h2 : 0 < b
    · rw [if_pos h2]
      have h3 : ¬ 0 < s := fun hc => h1 ⟨h2, hc⟩
      have h4 : s = 0 := le_antisymm (not_lt.mp h3) hs
      rw [h4]
      ring
    · rw [if_neg h2]
      have h4 : b = 0 := le_antisymm (not_lt.mp h2) hb
      by_cases h3 : 0 < s
      · rw [if_pos h3, h4]
        ring
      · rw [if_neg h3]
        have h5 : s = 0 := le_antisymm (not_lt.mp h3) hs
        rw [h4, h5]
        ring

theorem ledgerStep_zero_signal (fee : ℚ) (st : LedgerState) (b : Bar) :
    (ledgerStep fee st b 0).2 = none := by
  unfold ledgerStep executedShares
  split_ifs <;> simp_all

/-- C1: `Stock.get_signals` aggregation.  For every date of the bar series,
the aggregated signal equals the sum of the (positive) notionals of the
enabled firing buy rules minus the sum over the enabled firing sell rules
(`B`/`S` are the per-rule amount series the method computes for the enabled
buy/sell rules); in particular when the two sums are equal — including both
positive — the signal is 0 and the ledger transition for that date records
no trade. -/
theorem C1_aggregated_signal_is_net (stock : Stock) (bars : List Bar)
    (B S : List (List ℚ)) (sigs : List ℚ)
    (hB : enabledAmounts bars stock.fee_rate stock.buy_strategies = .ok B)
    (hS : enabledAmounts bars stock.fee_rate stock.sell_strategies = .ok S)
    (hsig : get_signals stock bars = .ok sigs) (i : ℕ) (hi : i < bars.length) :
    sigs.getD i 0 =
      accumPositive (amountsAt B i) - accumPositive (amountsAt S i) ∧
    (accumPositive (amountsAt B i) = accumPositive (amountsAt S i) →
      sigs.getD i 0 = 0 ∧
      ∀ fee st b, (ledgerStep fee st b (sigs.getD i 0)).2 = none) := by
  rw [get_signals, hB, hS] at hsig
  have hs : sigs = (List.range bars.length).map (fun i =>
      netSignalAt (accumPositive (amountsAt B i))
        (accumPositive (amountsAt S i))) := by
    cases hsig
    rfl
  subst hs
  rw [getD_map_range _ hi]
  have heq : netSignalAt (accumPositive (amountsAt B i))
      (accumPositive (amountsAt S i)) =
      accumPositive (amountsAt B i) - accumPositive (amountsAt S i) :=
    netSignalAt_eq_sub _ _ (accumPositive_nonneg _) (accumPositive_nonneg _)
  refine ⟨heq, fun hbs => ?_⟩
  have hzero : netSignalAt (accumPositive (amountsAt B i))
      (accumPositive (amountsAt S i)) = 0 := by
    rw [heq, hbs]
    ring
  refine ⟨hzero, fun fee st b => ?_⟩
  rw [hzero]
  exact ledgerStep_zero_signal fee st b

/-- Concrete one-rule stock for the C1 witness: a daily fixed-notional buy
rule of 10000, zero fee. -/
def c1strat : Strategy :=
  { name := "d", stype := "time_based", signal_type := SignalType.buy,
    params := { frequency := some "daily", trade_amount := some 10000 } }

def c1stock : Stock :=
  { code := "T", fee_rate := 0, buy_strategies := [c1strat] }

/-- One bar at close 100 for the C1 witness. -/
def c1bars : List Bar := [{ date := { weekday := 0, day := 2, month := 6 }, close := 100 }]

/-- C1 witness: the aggregation theorem evaluated on the concrete one-rule
configuration (one daily buy of notional 10000 at close 100 gives signal
10000 on the single date). -/
theorem C1_witness :
    enabledAmounts c1bars c1stock.fee_rate c1stock.buy_strategies =
      .ok [[10000]] ∧
    enabledAmounts c1bars c1stock.fee_rate c1stock.sell_strategies = .ok [] ∧
    get_signals c1stock c1bars = .ok [10000] ∧ 0 < c1bars.length ∧
    (([10000] : List ℚ).getD 0 0 =
      accumPositive (amountsAt [[10000]] 0) - accumPositive (amountsAt [] 0) ∧
    (accumPositive (amountsAt [[10000]] 0) = accumPositive (amountsAt [] 0) →
      ([10000] : List ℚ).getD 0 0 = 0 ∧
      ∀ fee st b, (ledgerStep fee st b (([10000] : List ℚ).getD 0 0)).2 = none)) := by
  have hB : enabledAmounts c1bars c1stock.fee_rate c1stock.buy_strategies =
      .ok [[10000]] := by
    norm_num [enabledAmounts, c1bars, c1stock, c1strat, mapExcept,
      strategyAmountSeries, generate_strategy_signals,
      generate_time_based_signals, calculate_strategy_amounts,
      strategyAmountAt, pyInt]
  have hS : enabledAmounts c1bars c1stock.fee_rate c1stock.sell_strategies =
      .ok [] := by
    norm_num [enabledAmounts, c1bars, c1stock, mapExcept]
  have hsig : get_signals c1stock c1bars = .ok [10000] := by
    rw [get_signals, hB, hS]
    norm_num [c1bars, netSignalAt, accumPositive, amountsAt, List.range_succ]
  exact ⟨hB, hS, hsig, by decide,
    C1_aggregated_signal_is_net c1stock c1bars [[10000]] [] [10000]
      hB hS hsig 0 (by decide)⟩

/-! Claim C3: the ledger never overdraws cash or shorts holdings. -/

theorem floor_div_mul_le (cash D : ℚ) (hD : 0 < D) :
    (⌊cash / D⌋ : ℚ) * D ≤ cash := by
  have h1 : (⌊cash / D⌋ : ℚ) ≤ cash / D := Int.floor_le _
  have h2 := mul_le_mul_of_nonneg_right h1 hD.le
  rwa [div_mul_cancel₀ _ hD.ne'] at h2

theorem ledgerStep_preserves (fee : ℚ) (hf0 : 0 ≤ fee) (hf1 : fee ≤ 1)
    (st : LedgerState) (b : Bar) (sig : ℚ)
    (hc : 0 ≤ st.cash) (hh : 0 ≤ st.holdings) :
    0 ≤ (ledgerStep fee st b sig).1.cash ∧
    0 ≤ (ledgerStep fee st b sig).1.holdings := by
  unfold ledgerStep
  by_cases hclose : b.close ≤ 0
  · rw [if_pos hclose]
    exact ⟨hc, hh⟩
  · rw [if_neg hclose]
    have hp : 0 < b.close := not_le.mp hclose
    by_cases hs0 : executedShares sig b.close fee st = 0
    · simp only [hs0, if_pos]
      exact ⟨hc, hh⟩
    · simp only [if_neg hs0]
      unfold executedShares at hs0 ⊢
      by_cases hsig : 0 < sig
      · rw [if_pos hsig] at hs0 ⊢
        have hD : 0 < b.close * (1 + fee) := mul_pos hp (by linarith)
        have hB0 : (0 : ℤ) ≤ ⌊st.cash / (b.close * (1 + fee))⌋ :=
          Int.floor_nonneg.mpr (div_nonneg hc hD.le)
        set sh : ℤ := max 0 (min ⌊sig / (b.close * (1 + fee))⌋
          ⌊st.cash / (b.close * (1 + fee))⌋) with hsh
        have hsh0 : (0 : ℤ) ≤ sh := le_max_left 0 _
        have hshB : sh ≤ ⌊st.cash / (b.close * (1 + fee))⌋ :=
          max_le hB0 (min_le_right _ _)
        have hshQ : (0 : ℚ) ≤ (sh : ℚ) := Int.cast_nonneg.mpr hsh0
        have habs : |(sh : ℚ) * b.close| = (sh : ℚ) * b.close :=
          abs_of_nonneg (mul_nonneg hshQ hp.le)
        have hle : (sh : ℚ) * (b.close * (1 + fee)) ≤ st.cash := by
          calc (sh : ℚ) * (b.close * (1 + fee))
              ≤ (⌊st.cash / (b.close * (1 + fee))⌋ : ℚ) * (b.close * (1 + fee)) :=
                mul_le_mul_of_nonneg_right (Int.cast_le.mpr hshB) hD.le
            _ ≤ st.cash := floor_div_mul_le _ _ hD
        constructor
        · dsimp only
          rw [habs]
          nlinarith
        · dsimp only
          exact add_nonneg hh hsh0
      · rw [if_neg hsig] at hs0 ⊢
        by_cases hsig2 : sig < 0
        · rw [if_pos hsig2] at hs0 ⊢
          set m : ℤ := max 0 (min st.holdings ⌊-sig / b.close⌋) with hm
          have hm0 : (0 : ℤ) ≤ m := le_max_left 0 _
          have hmh : m ≤ st.holdings := max_le hh (min_le_left _ _)
          have hmQ : (0 : ℚ) ≤ (m : ℚ) := Int.cast_nonneg.mpr hm0
          have habs : |((-m : ℤ) : ℚ) * b.close| = (m : ℚ) * b.close := by
            rw [Int.cast_neg]
            rw [abs_of_nonpos (by nlinarith)]
            ring
          constructor
          · dsimp only
            rw [habs, Int.cast_neg]
            have h1 : (0 : ℚ) ≤ (m : ℚ) * b.close := mul_nonneg hmQ hp.le
            have h2 : (0 : ℚ) ≤ (m : ℚ) * b.close * (1 - fee) :=
              mul_nonneg h1 (by linarith)
            nlinarith [h2]
          · dsimp only
            omega
        · exfalso
          exact hs0 (by rw [if_neg hsig2])

/-- C3: invariants of the spec's §4.3/§4.4 ledger (modelled from the spec;
`run_portfolio_backtest` is absent from the source tree).  Holdings are
integral by the ledger's type (`ℤ` share counts); every per-date transition
from a state with non-negative cash and holdings yields non-negative cash
and holdings — in particular `cash ≥ 0 ≥ -eps` — because a buy is clamped
to `floor(cash/(P*(1+f)))` shares and a sell to the current holdings.
`0 ≤ fee ≤ 1` reflects the per-unit fee rate (the source default is
0.0003). -/
theorem C3_ledger_invariant (fee : ℚ) (st : LedgerState)
    (entries : List (Bar × ℚ)) (hf0 : 0 ≤ fee) (hf1 : fee ≤ 1)
    (hc : 0 ≤ st.cash) (hh : 0 ≤ st.holdings) :
    (∀ b sig, 0 ≤ (ledgerStep fee st b sig).1.cash ∧
      0 ≤ (ledgerStep fee st b sig).1.holdings) ∧
    ∀ j : ℕ, 0 ≤ ((runLedger fee st entries).1.getD j default).cash ∧
      0 ≤ ((runLedger fee st entries).1.getD j default).holdings := by
  refine ⟨fun b sig => ledgerStep_preserves fee hf0 hf1 st b sig hc hh, ?_⟩
  have hmem : ∀ (es : List (Bar × ℚ)) (st2 : LedgerState),
      0 ≤ st2.cash → 0 ≤ st2.holdings →
      ∀ r ∈ (runLedger fee st2 es).1, 0 ≤ r.cash ∧ 0 ≤ r.holdings := by
    intro es
    induction es with
    | nil =>
      intro st2 _ _ r hr
      simp [runLedger] at hr
    | cons e rest ih =>
      intro st2 hc2 hh2 r hr
      obtain ⟨b, sig⟩ := e
      have hstep := ledgerStep_preserves fee hf0 hf1 st2 b sig hc2 hh2
      simp only [runLedger] at hr
      rcases List.mem_cons.mp hr with rfl | htail
      · exact hstep
      · exact ih (ledgerStep fee st2 b sig).1 hstep.1 hstep.2 r htail
  intro j
  by_cases hj : j < (runLedger fee st entries).1.length
  · rw [List.getD_eq_getElem _ _ hj]
    exact hmem entries st hc hh _ (List.getElem_mem hj)
  · rw [List.getD_eq_default _ _ (not_lt.mp hj)]
    exact ⟨le_refl 0, le_refl 0⟩

/-- Bar used by concrete ledger witnesses. -/
def c3bar : Bar := { date := { weekday := 0, day := 2, month := 6 }, close := 10 }

/-- C3 witness: the invariant evaluated at a concrete state (cash 1000,
5 shares), fee 0.0003, a close of 10 and a buy signal of 250. -/
theorem C3_witness :
    (0 : ℚ) ≤ 3 / 10000 ∧ (3 / 10000 : ℚ) ≤ 1 ∧
    (0 : ℚ) ≤ (({ cash := 1000, holdings := 5 } : LedgerState)).cash ∧
    (0 : ℤ) ≤ (({ cash := 1000, holdings := 5 } : LedgerState)).holdings ∧
    (0 ≤ (ledgerStep (3 / 10000) { cash := 1000, holdings := 5 } c3bar 250).1.cash ∧
     0 ≤ (ledgerStep (3 / 10000) { cash := 1000, holdings := 5 } c3bar 250).1.holdings) ∧
    (0 ≤ ((runLedger (3 / 10000) { cash := 1000, holdings := 5 }
        [(c3bar, 250)]).1.getD 0 default).cash ∧
     0 ≤ ((runLedger (3 / 10000) { cash := 1000, holdings := 5 }
        [(c3bar, 250)]).1.getD 0 default).holdings) := by
  have h := C3_ledger_invariant (3 / 10000) { cash := 1000, holdings := 5 }
    [(c3bar, 250)] (by norm_num) (by norm_num) (by norm_num) (by norm_num)
  exact ⟨by norm_num, by norm_num, by norm_num, by norm_num,
    h.1 c3bar 250, h.2 0⟩

/-! Claim C2: fixed-notional buy sizing. -/

/-- C2: for a fixed-notional buy rule with notional `M`, the amount the
rule forwards (source: `Stock._calculate_strategy_amounts`) is the
whole-share cost `floor(M/(P*(1+f))) * P * (1+f)`, and the ledger transition
(modelled from spec §4.3, the missing `run_portfolio_backtest`) executes
exactly `max(0, min(floor(M/(P*(1+f))), floor(cash/(P*(1+f)))))` shares;
any trade it records has notional `shares*P` and commission
`|shares*P|*f`, both computed from the integer share count, not from `M`. -/
theorem C2_fixed_notional_buy_sizing (M fee cash : ℚ) (holdings : ℤ)
    (b : Bar) (s : Strategy) (hM : 0 ≤ M) (hp : 0 < b.close) (hf : 0 ≤ fee)
    (hc : 0 ≤ cash) (hts : s.params.trade_shares = none)
    (hta : s.params.trade_amount = some M) :
    ∃ a, strategyAmountAt s fee b.close = .ok a ∧
      a = (⌊M / (b.close * (1 + fee))⌋ : ℚ) * b.close * (1 + fee) ∧
      executedShares a b.close fee { cash := cash, holdings := holdings } =
        max 0 (min ⌊M / (b.close * (1 + fee))⌋ ⌊cash / (b.close * (1 + fee))⌋) ∧
      ∀ t, (ledgerStep fee { cash := cash, holdings := holdings } b a).2 = some t →
        t.shares = executedShares a b.close fee { cash := cash, holdings := holdings } ∧
        t.value = (t.shares : ℚ) * b.close ∧
        t.commission = |(t.shares : ℚ) * b.close| * fee := by
  have hD : 0 < b.close * (1 + fee) := mul_pos hp (by linarith)
  have hq : pyInt (M / (b.close * (1 + fee))) = ⌊M / (b.close * (1 + fee))⌋ := by
    rw [pyInt, if_pos (div_nonneg hM hD.le)]
  have hq0 : (0 : ℤ) ≤ ⌊M / (b.close * (1 + fee))⌋ :=
    Int.floor_nonneg.mpr (div_nonneg hM hD.le)
  refine ⟨(⌊M / (b.close * (1 + fee))⌋ : ℚ) * b.close * (1 + fee), ?_, rfl, ?_, ?_⟩
  · rw [strategyAmountAt, hts, hta]
    dsimp only
    rw [hq]
  · set q : ℤ := ⌊M / (b.close * (1 + fee))⌋ with hqdef
    have ha : (q : ℚ) * b.close * (1 + fee) = (q : ℚ) * (b.close * (1 + fee)) := by
      ring
    have hfloor : ⌊(q : ℚ) * b.close * (1 + fee) / (b.close * (1 + fee))⌋ = q := by
      rw [ha, mul_div_assoc, div_self hD.ne', mul_one, Int.floor_intCast]
    by_cases hapos : 0 < (q : ℚ) * b.close * (1 + fee)
    · rw [executedShares, if_pos hapos, hfloor]
    · have hq0Q : (0 : ℚ) ≤ (q : ℚ) := Int.cast_nonneg.mpr hq0
      have hge : (0 : ℚ) ≤ (q : ℚ) * b.close * (1 + fee) := by
        rw [ha]
        exact mul_nonneg hq0Q hD.le
      have haz : (q : ℚ) * b.close * (1 + fee) = 0 :=
        le_antisymm (not_lt.mp hapos) hge
      have hqz : q = 0 := by
        have : (q : ℚ) = 0 := by
          rw [ha] at haz
          rcases mul_eq_zero.mp haz with h | h
          · exact h
          · exact absurd h hD.ne'
        exact_mod_cast this
      have hB0 : (0 : ℤ) ≤ ⌊cash / (b.close * (1 + fee))⌋ :=
        Int.floor_nonneg.mpr (div_nonneg hc hD.le)
      rw [executedShares, if_neg hapos, if_neg (by rw [haz]; exact lt_irrefl 0), hqz]
      rw [min_comm, min_eq_right hB0]
      exact (max_self 0).symm
  · intro t ht
    rw [ledgerStep, if_neg (not_le.mpr hp)] at ht
    by_cases hsh0 : executedShares ((⌊M / (b.close * (1 + fee))⌋ : ℚ) * b.close * (1 + fee))
        b.close fee { cash := cash, holdings := holdings } = 0
    · rw [if_pos hsh0] at ht
      cases ht
    · rw [if_neg hsh0] at ht
      cases ht
      exact ⟨rfl, rfl, rfl⟩

/-- Bar at the spec §8 example price 33.33 for the C2 witness. -/
def c2bar : Bar := { date := { weekday := 0, day := 2, month := 6 }, close := 3333 / 100 }

/-- Fixed-notional daily buy rule of 10000 for the C2 witness. -/
def c2strat : Strategy :=
  { name := "f", stype := "time_based", signal_type := SignalType.buy,
    params := { frequency := some "daily", trade_amount := some 10000 } }

/-- C2 witness: the sizing theorem evaluated on the spec §8 integer-rounding
example (notional 10000, price 33.33, fee 0.001, cash 100000). -/
theorem C2_witness :
    (0 : ℚ) ≤ 10000 ∧ (0 : ℚ) < c2bar.close ∧ (0 : ℚ) ≤ 1 / 1000 ∧
    (0 : ℚ) ≤ 100000 ∧ c2strat.params.trade_shares = none ∧
    c2strat.params.trade_amount = some 10000 ∧
    ∃ a, strategyAmountAt c2strat (1 / 1000) c2bar.close = .ok a ∧
      a = (⌊(10000 : ℚ) / (c2bar.close * (1 + 1 / 1000))⌋ : ℚ) * c2bar.close * (1 + 1 / 1000) ∧
      executedShares a c2bar.close (1 / 1000) { cash := 100000, holdings := 0 } =
        max 0 (min ⌊(10000 : ℚ) / (c2bar.close * (1 + 1 / 1000))⌋
          ⌊(100000 : ℚ) / (c2bar.close * (1 + 1 / 1000))⌋) ∧
      ∀ t, (ledgerStep (1 / 1000) { cash := 100000, holdings := 0 } c2bar a).2 = some t →
        t.shares = executedShares a c2bar.close (1 / 1000) { cash := 100000, holdings := 0 } ∧
        t.value = (t.shares : ℚ) * c2bar.close ∧
        t.commission = |(t.shares : ℚ) * c2bar.close| * (1 / 1000) :=
  ⟨by norm_num, by norm_num [c2bar], by norm_num, by norm_num, rfl, rfl,
   C2_fixed_notional_buy_sizing 10000 (1 / 1000) 100000 0 c2bar c2strat
     (by norm_num) (by norm_num [c2bar]) (by norm_num) (by norm_num) rfl rfl⟩

/-! Claims C8 and C4: trade commissions and per-date value conservation. -/

theorem mem_toList_eq_some {α : Type} (o : Option α) (t : α)
    (h : t ∈ o.toList) : o = some t := by
  cases o with
  | none => cases h
  | some u =>
    simp only [Option.toList_some, List.mem_singleton] at h
    rw [h]

theorem engineStep_trade_spec (rate : ℚ) (st : EngineState) (date : BarDate)
    (price pos sig : ℚ) (t : EngineTrade)
    (h : (engineStep rate st date price pos sig).2 = some t) :
    t.commission = |t.shares * t.price| * rate ∧ t.shares ≠ 0 := by
  unfold engineStep at h
  dsimp only at h
  split at h
  · split at h
    · rename_i hc
      dsimp only at h
      cases h
      exact ⟨rfl, abs_pos.mp (lt_trans (by norm_num) hc.1)⟩
    · dsimp only at h
      cases h
  · split at h
    · rename_i hc
      dsimp only at h
      cases h
      exact ⟨rfl, abs_pos.mp (lt_trans (by norm_num) hc.1)⟩
    · dsimp only at h
      cases h

theorem ledgerStep_trade_spec (fee : ℚ) (st : LedgerState) (b : Bar)
    (sig : ℚ) (t : Trade) (h : (ledgerStep fee st b sig).2 = some t) :
    t.commission = |(t.shares : ℚ) * t.price| * fee ∧ t.shares ≠ 0 := by
  unfold ledgerStep at h
  split at h
  · cases h
  · dsimp only at h
    split at h
    · cases h
    · rename_i hsh
      dsimp only at h
      cases h
      exact ⟨rfl, hsh⟩

/-- C8: every recorded trade has `commission = |shares*price| * fee_rate`
and a nonzero executed share delta — both in the single-symbol engine of
`BacktestEngine._calculate_portfolio_performance` (source) and in the
spec-modelled §4.3 ledger (the missing `run_portfolio_backtest`). -/
theorem C8_commission_and_nonzero_shares (rate fee : ℚ) (est : EngineState)
    (lst : LedgerState) (rows : List (BarDate × ℚ × ℚ × ℚ))
    (entries : List (Bar × ℚ)) :
    (∀ t ∈ (engineRun rate est rows).2,
      t.commission = |t.shares * t.price| * rate ∧ t.shares ≠ 0) ∧
    (∀ t ∈ (runLedger fee lst entries).2,
      t.commission = |(t.shares : ℚ) * t.price| * fee ∧ t.shares ≠ 0) := by
  constructor
  · induction rows generalizing est with
    | nil =>
      intro t ht
      simp [engineRun] at ht
    | cons row rest ih =>
      intro t ht
      obtain ⟨d, price, pos, sig⟩ := row
      simp only [engineRun] at ht
      rcases List.mem_append.mp ht with hhd | htl
      · exact engineStep_trade_spec rate est d price pos sig t
          (mem_toList_eq_some _ t hhd)
      · exact ih (engineStep rate est d price pos sig).1 t htl
  · induction entries generalizing lst with
    | nil =>
      intro t ht
      simp [runLedger] at ht
    | cons e rest ih =>
      intro t ht
      obtain ⟨b, sig⟩ := e
      simp only [runLedger] at ht
      rcases List.mem_append.mp ht with hhd | htl
      · exact ledgerStep_trade_spec fee lst b sig t (mem_toList_eq_some _ t hhd)
      · exact ih (ledgerStep fee lst b sig).1 t htl

/-- C4: every recorded daily row satisfies
`portfolio_value = cash + holdings*close` — in the single-symbol loop of
`BacktestEngine._calculate_portfolio_performance` (source lines 292-307,
which recompute the holdings value and record `cash + holdings_value`) and
in the spec-modelled §4.4 ledger, whether or not a trade executed that
date. -/
theorem C4_value_conservation (rate fee : ℚ) (est : EngineState)
    (lst : LedgerState) (rows : List (BarDate × ℚ × ℚ × ℚ))
    (entries : List (Bar × ℚ)) :
    (∀ r ∈ (engineRun rate est rows).1,
      r.total = r.cash + r.shares * r.close) ∧
    (∀ r ∈ (runLedger fee lst entries).1,
      r.value = r.cash + (r.holdings : ℚ) * r.close) := by
  constructor
  · induction rows generalizing est with
    | nil =>
      intro r hr
      simp [engineRun] at hr
    | cons row rest ih =>
      intro r hr
      obtain ⟨d, price, pos, sig⟩ := row
      simp only [engineRun] at hr
      rcases List.mem_cons.mp hr with rfl | htl
      · rfl
      · exact ih (engineStep rate est d price pos sig).1 r htl
  · induction entries generalizing lst with
    | nil =>
      intro r hr
      simp [runLedger] at hr
    | cons e rest ih =>
      intro r hr
      obtain ⟨b, sig⟩ := e
      simp only [runLedger] at hr
      rcases List.mem_cons.mp hr with rfl | htl
      · rfl
      · exact ih (ledgerStep fee lst b sig).1 r htl

/-! Claim C5: multi-instrument composition. -/

theorem mapExcept_ok_forall₂ {α β : Type} (f : α → Except String β)
    (l : List α) (bs : List β) (h : mapExcept f l = .ok bs) :
    List.Forall₂ (fun a b => f a = .ok b) l bs := by
  induction l generalizing bs with
  | nil =>
    rw [mapExcept] at h
    cases h
    exact List.Forall₂.nil
  | cons a as ih =>
    rw [mapExcept] at h
    cases hfa : f a with
    | error e => rw [hfa] at h; cases h
    | ok b =>
      rw [hfa] at h
      cases hrest : mapExcept f as with
      | error e => rw [hrest] at h; cases h
      | ok bs2 =>
        rw [hrest] at h
        cases h
        exact List.Forall₂.cons hfa (ih bs2 hrest)

theorem foldl_zipAdd_getD (n i : ℕ) (hi : i < n) (ls : List (List ℚ))
    (acc : List ℚ) (hacc : acc.length = n) (hlen : ∀ l ∈ ls, l.length = n) :
    (ls.foldl (fun acc l => List.zipWith (· + ·) acc l) acc).getD i 0 =
      acc.getD i 0 + (ls.map (fun l => l.getD i 0)).sum := by
  induction ls generalizing acc with
  | nil => simp
  | cons l rest ih =>
    have hl : l.length = n := hlen l (List.mem_cons_self l rest)
    have hzlen : (List.zipWith (· + ·) acc l).length = n := by
      rw [List.length_zipWith, hacc, hl, min_self]
    have hstep : (List.zipWith (· + ·) acc l).getD i 0 =
        acc.getD i 0 + l.getD i 0 := by
      rw [List.getD_eq_getElem _ _ (by rw [hzlen]; exact hi),
        List.getD_eq_getElem _ _ (by rw [hacc]; exact hi),
        List.getD_eq_getElem _ _ (by rw [hl]; exact hi)]
      exact List.getElem_zipWith
    rw [List.foldl_cons,
      ih (List.zipWith (· + ·) acc l) hzlen
        (fun m hm => hlen m (List.mem_cons_of_mem l hm)),
      hstep, List.map_cons, List.sum_cons]
    ring

theorem sumSeries_getD (n i : ℕ) (hi : i < n) (ls : List (List ℚ))
    (hlen : ∀ l ∈ ls, l.length = n) :
    (sumSeries n ls).getD i 0 = (ls.map (fun l => l.getD i 0)).sum := by
  rw [sumSeries, foldl_zipAdd_getD n i hi ls _ (List.length_replicate n 0) hlen,
    List.getD_eq_getElem _ _ (by rw [List.length_replicate]; exact hi)]
  simp

/-- C5: the spec-modelled PortfolioComposer (§4.5 half of the missing
`run_portfolio_backtest`).  When every instrument's independent simulation
succeeds, the composed result is exactly: per-date sum of the
per-instrument portfolio-value series, and the concatenation of the
per-instrument trade logs; each run in `runs` is the standalone
`runInstrument` of its own (stock, bars) pair — its own `max_investment`
budget, no shared cash pool. -/
theorem C5_independent_composition (insts : List (Stock × List Bar))
    (n i : ℕ) (runs : List InstrumentRun)
    (h : mapExcept (fun sb => runInstrument sb.1 sb.2) insts = .ok runs)
    (hlen : ∀ r ∈ runs, r.values.length = n) (hi : i < n) :
    run_portfolio_backtest insts n =
      .ok (sumSeries n (runs.map InstrumentRun.values),
           (runs.map InstrumentRun.trades).flatten) ∧
    (sumSeries n (runs.map InstrumentRun.values)).getD i 0 =
      (runs.map (fun r => r.values.getD i 0)).sum ∧
    List.Forall₂ (fun sb r => runInstrument sb.1 sb.2 = .ok r) insts runs := by
  refine ⟨by rw [run_portfolio_backtest, h], ?_, mapExcept_ok_forall₂ _ _ _ h⟩
  have hmap : (runs.map InstrumentRun.values).map (fun l => l.getD i 0) =
      runs.map (fun r => r.values.getD i 0) := by
    rw [List.map_map]
    rfl
  rw [sumSeries_getD n i hi _ ?_, hmap]
  intro l hl
  obtain ⟨r, hr, rfl⟩ := List.mem_map.mp hl
  exact hlen r hr

/-- Instruments and bar for the C5 witness: two stocks with different
budgets and no strategies, over a shared one-date grid. -/
def c5bar : Bar := { date := { weekday := 0, day := 2, month := 6 }, close := 10 }

def c5stockA : Stock := { code := "A" }

def c5stockB : Stock := { code := "B", max_investment := 50000 }

/-- Run of instrument A alone: no trades, value = its own budget. -/
def c5runA : InstrumentRun :=
  { records := [{ date := c5bar.date, cash := 100000, holdings := 0,
                  close := 10, value := 100000 }], trades := [] }

/-- Run of instrument B alone: no trades, value = its own budget. -/
def c5runB : InstrumentRun :=
  { records := [{ date := c5bar.date, cash := 50000, holdings := 0,
                  close := 10, value := 50000 }], trades := [] }

/-- C5 witness: the composition theorem evaluated on the two-instrument
example; the composed value series is the per-date sum 150000. -/
theorem C5_witness :
    mapExcept (fun sb => runInstrument sb.1 sb.2)
      [(c5stockA, [c5bar]), (c5stockB, [c5bar])] = .ok [c5runA, c5runB] ∧
    (∀ r ∈ [c5runA, c5runB], r.values.length = 1) ∧ 0 < 1 ∧
    (run_portfolio_backtest [(c5stockA, [c5bar]), (c5stockB, [c5bar])] 1 =
      .ok (sumSeries 1 ([c5runA, c5runB].map InstrumentRun.values),
           ([c5runA, c5runB].map InstrumentRun.trades).flatten) ∧
    (sumSeries 1 ([c5runA, c5runB].map InstrumentRun.values)).getD 0 0 =
      ([c5runA, c5runB].map (fun r => r.values.getD 0 0)).sum ∧
    List.Forall₂ (fun sb r => runInstrument sb.1 sb.2 = .ok r)
      [(c5stockA, [c5bar]), (c5stockB, [c5bar])] [c5runA, c5runB]) := by
  have h : mapExcept (fun sb => runInstrument sb.1 sb.2)
      [(c5stockA, [c5bar]), (c5stockB, [c5bar])] = .ok [c5runA, c5runB] := by
    norm_num [mapExcept, runInstrument, get_signals, enabledAmounts,
      initLedger, runLedger, ledgerStep, executedShares, netSignalAt,
      accumPositive, amountsAt, c5stockA, c5stockB, c5bar, c5runA, c5runB,
      List.range_succ]
  exact ⟨h, by decide, by decide,
    C5_independent_composition [(c5stockA, [c5bar]), (c5stockB, [c5bar])]
      1 0 [c5runA, c5runB] h (by decide) (by decide)⟩

/-! Claim C7: the never-recovered drawdown sentinel. -/

theorem findRecovery_eq_none (target : ℚ) (xs : List ℚ)
    (h : ∀ x ∈ xs, x < target) : findRecovery target xs = none := by
  induction xs with
  | nil => rfl
  | cons x rest ih =>
    rw [findRecovery,
      if_neg (not_le.mpr (h x (List.mem_cons_self x rest))),
      ih (fun y hy => h y (List.mem_cons_of_mem x hy))]
    rfl

/-- C7: when no value from the max-drawdown trough onward reaches the prior
running-peak value, `utils.calculate_max_drawdown` returns the explicit
sentinel `recovery_date = None` (here `recovery_idx = none`) with
`recovery_days` left at 0, and the sentinel is not an index — in particular
it differs from the `some trough` index that a recovery in 0 days would
produce; the function is total, so no exception escapes. -/
theorem C7_unrecovered_returns_sentinel (cum : List ℚ)
    (h : ∀ x ∈ cum.drop (troughIdx cum), x < priorPeakVal cum) :
    (calculate_max_drawdown cum).recovery_idx = none ∧
    (calculate_max_drawdown cum).recovery_days = 0 ∧
    (calculate_max_drawdown cum).recovery_idx ≠
      some (calculate_max_drawdown cum).max_drawdown_idx := by
  have hfound : (if troughIdx cum < cum.length - 1 then
      findRecovery (priorPeakVal cum) (cum.drop (troughIdx cum))
    else none) = none := by
    split_ifs with hc
    · exact findRecovery_eq_none _ _ h
    · rfl
  unfold calculate_max_drawdown
  dsimp only
  rw [hfound]
  exact ⟨rfl, rfl, fun h2 => Option.noConfusion h2⟩

/-- C7 witness: the spec §8 never-recovered example [100, 120, 80, 90]:
trough 80 at position 2 off the prior peak 120, and no later value reaches
120. -/
theorem C7_witness :
    (∀ x ∈ ([100, 120, 80, 90] : List ℚ).drop (troughIdx [100, 120, 80, 90]),
      x < priorPeakVal [100, 120, 80, 90]) ∧
    (calculate_max_drawdown [100, 120, 80, 90]).recovery_idx = none ∧
    (calculate_max_drawdown [100, 120, 80, 90]).recovery_days = 0 ∧
    (calculate_max_drawdown [100, 120, 80, 90]).recovery_idx ≠
      some (calculate_max_drawdown [100, 120, 80, 90]).max_drawdown_idx := by
  have h1 : calculate_drawdown [100, 120, 80, 90] = [0, 0, -1/3, -1/4] := by
    norm_num [calculate_drawdown, expandingMax, expandingMaxFrom, max_def]
  have h2 : troughIdx [100, 120, 80, 90] = 2 := by
    rw [troughIdx, h1]
    norm_num [argminFirst, listMin, min_def]
  have h3 : priorPeakVal [100, 120, 80, 90] = 120 := by
    rw [priorPeakVal, h2]
    norm_num [expandingMax, expandingMaxFrom, argmaxFirst, listMax, max_def]
  have h : ∀ x ∈ ([100, 120, 80, 90] : List ℚ).drop
      (troughIdx [100, 120, 80, 90]), x < priorPeakVal [100, 120, 80, 90] := by
    rw [h2, h3]
    norm_num
  exact ⟨h, C7_unrecovered_returns_sentinel [100, 120, 80, 90] h⟩

/-! Claim C10: the two annualized-return conventions. -/

theorem perfAnnualizedReturn_eq (rs : List ℚ) (h0 : 0 < rs.length) :
    perfAnnualizedReturn rs =
      (1 + ((totalReturn rs : ℚ) : ℝ)) ^ ((252 : ℝ) / (rs.length : ℝ)) - 1 := by
  have hd : (0 : ℝ) < (rs.length : ℝ) := by exact_mod_cast h0
  rw [perfAnnualizedReturn]
  rw [if_pos (by positivity), one_div_div]

theorem calculate_annualized_return_eq (rs : List ℚ) (h0 : 0 < rs.length) :
    calculate_annualized_return ((totalReturn rs : ℚ) : ℝ) (rs.length : ℤ) =
      (1 + ((totalReturn rs : ℚ) : ℝ)) ^ ((365 : ℝ) / (rs.length : ℝ)) - 1 := by
  have hn : ¬ ((rs.length : ℤ) ≤ 0) := by
    rw [not_le]
    exact_mod_cast h0
  rw [calculate_annualized_return, if_neg hn]
  norm_num

/-- C10 counterexample: a one-day series with daily return 3 (cumulative
return 3, day count 1).  The performance module compounds with exponent
`252/days` (performance.py line 62-63: `(1+total) ** (1/(days/252))`) and
utils with exponent `365/days`, so they give `4^252 - 1` vs `4^365 - 1`:
the program does not use one uniform convention. -/
theorem C10_counterexample :
    perfAnnualizedReturn [3] ≠
      calculate_annualized_return ((totalReturn [3] : ℚ) : ℝ)
        (([3] : List ℚ).length : ℤ) := by
  have h0 : 0 < ([3] : List ℚ).length := by norm_num
  rw [perfAnnualizedReturn_eq [3] h0, calculate_annualized_return_eq [3] h0]
  have ht : ((totalReturn [3] : ℚ) : ℝ) = 3 := by norm_num [totalReturn]
  rw [ht]
  have hlen : (([3] : List ℚ).length : ℝ) = 1 := by norm_num
  rw [hlen]
  have hlt : (4 : ℝ) ^ ((252 : ℝ) / 1) < (4 : ℝ) ^ ((365 : ℝ) / 1) := by
    rw [Real.rpow_lt_rpow_left_iff (by norm_num : (1 : ℝ) < 4)]
    norm_num
  have h4 : (1 : ℝ) + 3 = 4 := by norm_num
  rw [h4]
  intro heq
  rw [sub_left_inj] at heq
  exact ne_of_lt hlt heq

/-- C10 amended: the program computes annualized return under two distinct
conventions — 252-trading-day compounding in the performance module and
365-calendar-day compounding in utils.  For a nonempty daily-return series
whose cumulative return exceeds -1, the two values agree exactly when the
cumulative return is 0. -/
theorem C10_conventions_agree_iff_zero (rs : List ℚ) (h0 : 0 < rs.length)
    (h1 : (-1 : ℝ) < ((totalReturn rs : ℚ) : ℝ)) :
    (perfAnnualizedReturn rs =
      calculate_annualized_return ((totalReturn rs : ℚ) : ℝ) (rs.length : ℤ) ↔
      ((totalReturn rs : ℚ) : ℝ) = 0) := by
  have hd : (0 : ℝ) < (rs.length : ℝ) := by exact_mod_cast h0
  have hb : (0 : ℝ) < 1 + ((totalReturn rs : ℚ) : ℝ) := by linarith
  have he : (252 : ℝ) / (rs.length : ℝ) < 365 / (rs.length : ℝ) :=
    div_lt_div_of_pos_right (by norm_num) hd
  rw [perfAnnualizedReturn_eq rs h0, calculate_annualized_return_eq rs h0]
  constructor
  · intro heq
    by_contra ht
    have hne : 1 + ((totalReturn rs : ℚ) : ℝ) ≠ 1 := by
      intro hc
      exact ht (by linarith)
    have hpow : (1 + ((totalReturn rs : ℚ) : ℝ)) ^ ((252 : ℝ) / (rs.length : ℝ)) ≠
        (1 + ((totalReturn rs : ℚ) : ℝ)) ^ ((365 : ℝ) / (rs.length : ℝ)) := by
      rcases lt_or_gt_of_ne hne with hlt | hgt
      · exact ne_of_gt ((Real.rpow_lt_rpow_left_iff_of_base_lt_one hb hlt).mpr he)
      · exact ne_of_lt ((Real.rpow_lt_rpow_left_iff hgt).mpr he)
    exact hpow (by linarith)
  · intro ht
    rw [ht]
    norm_num

/-- C10 witness: on the zero-return one-day series the two conventions
agree (both give 0), matching the amended characterisation. -/
theorem C10_witness :
    0 < ([0] : List ℚ).length ∧
    (-1 : ℝ) < ((totalReturn [0] : ℚ) : ℝ) ∧
    (perfAnnualizedReturn [0] =
      calculate_annualized_return ((totalReturn [0] : ℚ) : ℝ)
        (([0] : List ℚ).length : ℤ) ↔
      ((totalReturn [0] : ℚ) : ℝ) = 0) :=
  ⟨by norm_num, by norm_num [totalReturn],
   C10_conventions_agree_iff_zero [0] (by norm_num) (by norm_num [totalReturn])⟩

end StockBT
